import Mathlib

/-!
Verification of `scripts/apply_breath_envelope.js`.

A shallow embedding of the breathing-envelope WAV utility.  Buffers are
`List ℕ` of byte values; Node `Buffer` reads/writes are modelled with
explicit bounds checks returning `Option` (Node throws `ERR_OUT_OF_RANGE`
on a failed bounds check).  JavaScript double arithmetic on samples and
gains is modelled with exact rationals `ℚ` (every finite double is a
rational), and the transcendental envelope curve with real numbers `ℝ`.
-/

namespace BreathEnvelope

/-- Byte at index `i` of a buffer (buffers are lists of byte values). -/
def readByte (buf : List ℕ) (i : ℕ) : ℕ := buf.getD i 0

/-- `Buffer.prototype.readUInt16LE`: two little-endian bytes, with Node's
bounds check (`offset + 2 ≤ length`, else `ERR_OUT_OF_RANGE`). -/
def readUInt16LE (buf : List ℕ) (off : ℕ) : Option ℕ :=
  if off + 2 ≤ buf.length then
    some (readByte buf off + 256 * readByte buf (off + 1))
  else none

/-- `Buffer.prototype.readUInt32LE`: four little-endian bytes with bounds
check. -/
def readUInt32LE (buf : List ℕ) (off : ℕ) : Option ℕ :=
  if off + 4 ≤ buf.length then
    some (readByte buf off + 256 * readByte buf (off + 1) +
      65536 * readByte buf (off + 2) + 16777216 * readByte buf (off + 3))
  else none

/-- `Buffer.prototype.readInt16LE`: the unsigned 16-bit little-endian read
reinterpreted in two's complement. -/
def readInt16LE (buf : List ℕ) (off : ℕ) : Option ℤ :=
  match readUInt16LE buf off with
  | none => none
  | some u => some (if u < 32768 then (u : ℤ) else (u : ℤ) - 65536)

/-- `Buffer.prototype.writeInt16LE buf v off`: Node checks
`-32768 ≤ v ≤ 32767` and the offset bound, and stores `v & 0xFFFF` as two
little-endian bytes. -/
def writeInt16LE (buf : List ℕ) (v : ℤ) (off : ℕ) : Option (List ℕ) :=
  if -32768 ≤ v ∧ v ≤ 32767 ∧ off + 2 ≤ buf.length then
    let u := (v % 65536).toNat
    some ((buf.set off (u % 256)).set (off + 1) (u / 256))
  else none

/-- `Buffer.prototype.slice a b` (with `0 ≤ a ≤ b`): the bytes from index
`a` up to (exclusive) `b`, clamped to the buffer length. -/
def sliceBuf (buf : List ℕ) (a b : ℕ) : List ℕ := (buf.drop a).take (b - a)

/-- One step class of `Buffer.prototype.indexOf`: does the byte pattern
`pat` occur in `buf` starting exactly at index `k`? -/
def extractAt (buf : List ℕ) (k n : ℕ) : List ℕ := (buf.drop k).take n

/-- Fuelled scan for the first occurrence of `pat` at index `≥ k`. -/
def indexOfAux (pat buf : List ℕ) : ℕ → ℕ → Option ℕ
  | 0, _ => none
  | fuel + 1, k =>
    if extractAt buf k pat.length = pat then some k
    else indexOfAux pat buf fuel (k + 1)

/-- `Buffer.prototype.indexOf pat`: index of the first occurrence of the
byte pattern, `none` standing for JavaScript's `-1`. -/
def indexOfPat (pat buf : List ℕ) : Option ℕ := indexOfAux pat buf (buf.length + 1) 0

/-- ASCII codes of `"RIFF"`. -/
def riffB : List ℕ := [82, 73, 70, 70]

/-- ASCII codes of `"WAVE"`. -/
def waveB : List ℕ := [87, 65, 86, 69]

/-- Byte pattern of `"fmt "`. -/
def fmtB : List ℕ := [102, 109, 116, 32]

/-- Byte pattern of `"data"`. -/
def dataB : List ℕ := [100, 97, 116, 97]

/-- `buf.toString('ascii', a, b)`: Node's `'ascii'` decoding unsets the
highest bit of each byte before decoding, so the decoded string is the
slice with every byte reduced mod 128. -/
def asciiSlice (buf : List ℕ) (a b : ℕ) : List ℕ :=
  (sliceBuf buf a b).map (· % 128)

/-! ## Envelope generator (`breathingEnvelope`)

`t = i / sampleRate` and `inhaleEnd = (totalSamples / sampleRate) / 2` are
ratios of integers, modelled exactly in `ℚ`; the branch test `t <= inhaleEnd`
is therefore decidable.  The cosine curve itself lives in `ℝ`. -/

/-- The time `t = i / sampleRate` of sample `i` (seconds). -/
def tQ (sampleRate i : ℕ) : ℚ := (i : ℚ) / (sampleRate : ℚ)

/-- `inhaleEnd = duration / 2` where `duration = totalSamples / sampleRate`. -/
def halfQ (totalSamples sampleRate : ℕ) : ℚ :=
  ((totalSamples : ℚ) / (sampleRate : ℚ)) / 2

/-- The branch test `t <= inhaleEnd` of the `if` in `breathingEnvelope`. -/
def isInhale (totalSamples sampleRate i : ℕ) : Bool :=
  tQ sampleRate i ≤ halfQ totalSamples sampleRate

/-- The gain `breathingEnvelope(totalSamples, sampleRate)[i]`:
`0.5 - 0.5*cos(π * (t/inhaleEnd))` on the inhale branch (`t ≤ inhaleEnd`),
`0.5 + 0.5*cos(π * ((t-inhaleEnd)/inhaleEnd))` on the exhale branch. -/
noncomputable def breathingEnvelope (totalSamples sampleRate i : ℕ) : ℝ :=
  if isInhale totalSamples sampleRate i then
    0.5 - 0.5 * Real.cos (Real.pi *
      ((tQ sampleRate i / halfQ totalSamples sampleRate : ℚ) : ℝ))
  else
    0.5 + 0.5 * Real.cos (Real.pi *
      (((tQ sampleRate i - halfQ totalSamples sampleRate) /
        halfQ totalSamples sampleRate : ℚ) : ℝ))

/-! ## Per-sample transform (`applyEnvelopeToSamples`) -/

/-- `Math.max(-1, Math.min(1, q))`. -/
def clamp (q : ℚ) : ℚ := max (-1) (min 1 q)

/-- The value written for input sample `s` and gain `g`:
`Math.floor(Math.max(-1, Math.min(1, (s / 32767) * g)) * 32767)`. -/
def transformSample (s : ℤ) (g : ℚ) : ℤ :=
  ⌊clamp ((s : ℚ) / 32767 * g) * 32767⌋

/-- The first `n` iterations of the loop in `applyEnvelopeToSamples`,
starting from the zero-filled buffer `Buffer.alloc(samples.length)`:
iteration `i` reads the 16-bit sample at byte offset `2*i`, transforms it
with gain `env[i]`, and writes it back at offset `2*i` of the output. -/
def applyLoop (samples : List ℕ) (env : List ℚ) : ℕ → Option (List ℕ)
  | 0 => some (List.replicate samples.length 0)
  | n + 1 => do
    let out ← applyLoop samples env n
    let s ← readInt16LE samples (2 * n)
    writeInt16LE out (transformSample s (env.getD n 0)) (2 * n)

/-- `applyEnvelopeToSamples`: run the loop for `envelope.length` iterations. -/
def applyEnvelopeToSamples (samples : List ℕ) (env : List ℚ) : Option (List ℕ) :=
  applyLoop samples env env.length

/-! ## WAV parsing (`parseWav`) and the whole-file pipeline (`processFile`) -/

/-- The distinct failure kinds of the script.  `outOfRange` is Node's
`ERR_OUT_OF_RANGE` from a buffer read/write with a bad offset, and
`invalidArrayLength` is the `RangeError` thrown by
`new Float32Array(n)` when `n = dataSize / 2` is not an integer. -/
inductive WavError
  | notRiffWave
  | missingFmtChunk
  | unsupportedFormat
  | unsupportedChannels
  | unsupportedBitDepth
  | missingDataChunk
  | outOfRange
  | invalidArrayLength
  deriving DecidableEq

/-- The record returned by `parseWav`.  The JavaScript object carries
`sampleCount = dataSize / 2` (a possibly fractional double); we carry the
declared `dataSize` instead and recover the count from it. -/
structure ParsedWav where
  sampleRate : ℕ
  samples : List ℕ
  dataSize : ℕ
  header : List ℕ
  deriving DecidableEq

/-- Lift a bounds-checked buffer access into the error monad. -/
def liftO {α : Type} (o : Option α) : Except WavError α :=
  match o with
  | some a => Except.ok a
  | none => Except.error WavError.outOfRange

/-- `parseWav`: magic-byte check via `toString('ascii', …)` comparisons,
pattern search for `"fmt "`, the four fmt-field reads, the three format
validations, pattern search for `"data"`, the declared-size read, and the
final slices.  Field reads happen before the validations, as in the
source. -/
def parseWav (buf : List ℕ) : Except WavError ParsedWav :=
  if ¬(asciiSlice buf 0 4 = riffB ∧ asciiSlice buf 8 12 = waveB) then
    Except.error WavError.notRiffWave
  else
    match indexOfPat fmtB buf with
    | none => Except.error WavError.missingFmtChunk
    | some fi =>
      match liftO (readUInt16LE buf (fi + 8)) with
      | Except.error e => Except.error e
      | Except.ok audioFormat =>
      match liftO (readUInt16LE buf (fi + 10)) with
      | Except.error e => Except.error e
      | Except.ok numChannels =>
      match liftO (readUInt32LE buf (fi + 12)) with
      | Except.error e => Except.error e
      | Except.ok sampleRate =>
      match liftO (readUInt16LE buf (fi + 22)) with
      | Except.error e => Except.error e
      | Except.ok bitsPerSample =>
        if audioFormat ≠ 1 then Except.error WavError.unsupportedFormat
        else if numChannels ≠ 1 then Except.error WavError.unsupportedChannels
        else if bitsPerSample ≠ 16 then Except.error WavError.unsupportedBitDepth
        else
          match indexOfPat dataB buf with
          | none => Except.error WavError.missingDataChunk
          | some di =>
            match liftO (readUInt32LE buf (di + 4)) with
            | Except.error e => Except.error e
            | Except.ok dataSize =>
              Except.ok
                { sampleRate := sampleRate
                  samples := sliceBuf buf (di + 8) (di + 8 + dataSize)
                  dataSize := dataSize
                  header := sliceBuf buf 0 (di + 8) }

/-- Modelled from the spec: "truncation toward zero", the quantization
policy named by the specification (the code itself uses `Math.floor`).
This definition exists only to compare the spec's stated policy with the
code's. -/
def truncTowardZero (q : ℚ) : ℤ := if 0 ≤ q then ⌊q⌋ else -⌊-q⌋

/-! ## Basic byte-level lemmas -/

lemma readByte_set_self {buf : List ℕ} {i : ℕ} (a : ℕ) (h : i < buf.length) :
    readByte (buf.set i a) i = a := by
  simp [readByte, List.getD_eq_getElem?_getD, List.getElem?_set, h]

lemma readByte_set_other {buf : List ℕ} {i j : ℕ} (a : ℕ) (h : i ≠ j) :
    readByte (buf.set i a) j = readByte buf j := by
  simp [readByte, List.getD_eq_getElem?_getD, List.getElem?_set, h]

lemma writeInt16LE_ok {buf : List ℕ} {v : ℤ} {off : ℕ} {out : List ℕ}
    (h : writeInt16LE buf v off = some out) :
    -32768 ≤ v ∧ v ≤ 32767 ∧ off + 2 ≤ buf.length ∧
    out = (buf.set off ((v % 65536).toNat % 256)).set (off + 1) ((v % 65536).toNat / 256) := by
  unfold writeInt16LE at h
  split at h
  · rename_i hc
    exact ⟨hc.1, hc.2.1, hc.2.2, (Option.some_inj.mp h).symm⟩
  · cases h

lemma writeInt16LE_length {buf : List ℕ} {v : ℤ} {off : ℕ} {out : List ℕ}
    (h : writeInt16LE buf v off = some out) : out.length = buf.length := by
  obtain ⟨-, -, -, rfl⟩ := writeInt16LE_ok h
  simp

lemma writeInt16LE_some (buf : List ℕ) (v : ℤ) (off : ℕ)
    (h1 : -32768 ≤ v) (h2 : v ≤ 32767) (h3 : off + 2 ≤ buf.length) :
    ∃ out, writeInt16LE buf v off = some out := by
  have : (writeInt16LE buf v off).isSome := by
    unfold writeInt16LE
    rw [if_pos ⟨h1, h2, h3⟩]
    rfl
  exact Option.isSome_iff_exists.mp this

lemma readByte_writeInt16LE_outside {buf : List ℕ} {v : ℤ} {off : ℕ} {out : List ℕ}
    (h : writeInt16LE buf v off = some out) {k : ℕ}
    (hk : k < off ∨ off + 2 ≤ k) :
    readByte out k = readByte buf k := by
  obtain ⟨-, -, -, rfl⟩ := writeInt16LE_ok h
  rw [readByte_set_other _ (by omega), readByte_set_other _ (by omega)]

lemma readInt16LE_writeInt16LE {buf : List ℕ} {v : ℤ} {off : ℕ} {out : List ℕ}
    (h : writeInt16LE buf v off = some out) :
    readInt16LE out off = some v := by
  obtain ⟨h1, h2, h3, rfl⟩ := writeInt16LE_ok h
  have hm : (0 : ℤ) ≤ v % 65536 := Int.emod_nonneg v (by norm_num)
  have hm2 : v % 65536 < 65536 := Int.emod_lt_of_pos v (by norm_num)
  have hu : ((v % 65536).toNat : ℤ) = v % 65536 := Int.toNat_of_nonneg hm
  have hu2 : (v % 65536).toNat < 65536 := by omega
  have hlen : off + 2 ≤
      ((buf.set off ((v % 65536).toNat % 256)).set
        (off + 1) ((v % 65536).toNat / 256)).length := by
    simpa using h3
  have b0 : readByte ((buf.set off ((v % 65536).toNat % 256)).set
      (off + 1) ((v % 65536).toNat / 256)) off = (v % 65536).toNat % 256 := by
    rw [readByte_set_other _ (by omega),
      readByte_set_self _ (by omega)]
  have b1 : readByte ((buf.set off ((v % 65536).toNat % 256)).set
      (off + 1) ((v % 65536).toNat / 256)) (off + 1) = (v % 65536).toNat / 256 := by
    rw [readByte_set_self _ (by simp only [List.length_set]; omega)]
  have h16 : readUInt16LE ((buf.set off ((v % 65536).toNat % 256)).set
      (off + 1) ((v % 65536).toNat / 256)) off = some (v % 65536).toNat := by
    rw [readUInt16LE, if_pos hlen, b0, b1]
    congr 1
    omega
  unfold readInt16LE
  rw [h16]
  exact congrArg some (by split <;> omega)

lemma readInt16LE_some {buf : List ℕ} {off : ℕ} (h : off + 2 ≤ buf.length) :
    ∃ s, readInt16LE buf off = some s := by
  have h16 : readUInt16LE buf off = some (readByte buf off + 256 * readByte buf (off + 1)) := by
    rw [readUInt16LE, if_pos h]
  exact ⟨if (readByte buf off + 256 * readByte buf (off + 1)) < 32768 then
      ((readByte buf off + 256 * readByte buf (off + 1) : ℕ) : ℤ)
    else ((readByte buf off + 256 * readByte buf (off + 1) : ℕ) : ℤ) - 65536,
    by unfold readInt16LE; rw [h16]⟩

lemma readInt16LE_congr {buf buf' : List ℕ} {off : ℕ}
    (hlen : buf'.length = buf.length)
    (hb0 : readByte buf' off = readByte buf off)
    (hb1 : readByte buf' (off + 1) = readByte buf (off + 1)) :
    readInt16LE buf' off = readInt16LE buf off := by
  unfold readInt16LE readUInt16LE
  rw [hlen, hb0, hb1]

end BreathEnvelope

namespace BreathEnvelope

/-! ## Lemmas about the sample-transform loop -/

lemma clamp_mem (q : ℚ) : -1 ≤ clamp q ∧ clamp q ≤ 1 := by
  unfold clamp
  exact ⟨le_max_left _ _, max_le (by norm_num) (min_le_left _ _)⟩

lemma transformSample_mem (s : ℤ) (g : ℚ) :
    -32767 ≤ transformSample s g ∧ transformSample s g ≤ 32767 := by
  obtain ⟨h1, h2⟩ := clamp_mem ((s : ℚ) / 32767 * g)
  unfold transformSample
  constructor
  · rw [Int.le_floor]
    push_cast
    nlinarith
  · have hle : clamp ((s : ℚ) / 32767 * g) * 32767 ≤ ((32767 : ℤ) : ℚ) := by
      push_cast
      nlinarith
    have := Int.floor_le_floor hle
    rwa [Int.floor_intCast] at this

lemma applyLoop_spec {samples : List ℕ} {env : List ℚ} :
    ∀ {n : ℕ} {out : List ℕ}, applyLoop samples env n = some out →
      out.length = samples.length ∧
      ∀ i < n, ∃ s, readInt16LE samples (2 * i) = some s ∧
        readInt16LE out (2 * i) = some (transformSample s (env.getD i 0)) := by
  intro n
  induction n with
  | zero =>
    intro out h
    unfold applyLoop at h
    rw [Option.some_inj] at h
    subst h
    exact ⟨by simp, by omega⟩
  | succ n ih =>
    intro out h
    unfold applyLoop at h
    simp only [Bind.bind, Option.bind_eq_some] at h
    obtain ⟨prev, hprev, s, hs, hw⟩ := h
    obtain ⟨hplen, hpread⟩ := ih hprev
    have holen : out.length = samples.length := by
      rw [writeInt16LE_length hw, hplen]
    refine ⟨holen, ?_⟩
    intro i hi
    rcases Nat.lt_succ_iff_lt_or_eq.mp hi with hlt | rfl
    · obtain ⟨si, hsi, hoi⟩ := hpread i hlt
      refine ⟨si, hsi, ?_⟩
      rw [readInt16LE_congr (writeInt16LE_length hw)
        (readByte_writeInt16LE_outside hw (by omega))
        (readByte_writeInt16LE_outside hw (by omega))]
      exact hoi
    · exact ⟨s, hs, readInt16LE_writeInt16LE hw⟩

lemma applyLoop_some {samples : List ℕ} {env : List ℚ} :
    ∀ n : ℕ, (∀ i < n, 2 * i + 2 ≤ samples.length) →
      ∃ out, applyLoop samples env n = some out := by
  intro n
  induction n with
  | zero => exact fun _ => ⟨_, rfl⟩
  | succ n ih =>
    intro h
    obtain ⟨prev, hprev⟩ := ih (fun i hi => h i (by omega))
    have hplen : prev.length = samples.length := (applyLoop_spec hprev).1
    have hn : 2 * n + 2 ≤ samples.length := h n (by omega)
    obtain ⟨s, hs⟩ := readInt16LE_some hn
    obtain ⟨b1, b2⟩ := transformSample_mem s (env.getD n 0)
    obtain ⟨out, hout⟩ :=
      writeInt16LE_some prev (transformSample s (env.getD n 0)) (2 * n)
        (by omega) (by omega) (by omega)
    refine ⟨out, ?_⟩
    unfold applyLoop
    simp only [Bind.bind, hprev, Option.some_bind, hs]
    exact hout

lemma applyEnvelope_spec {samples : List ℕ} {env : List ℚ} {out : List ℕ}
    (h : applyEnvelopeToSamples samples env = some out) :
    out.length = samples.length ∧
    ∀ i < env.length, ∃ s, readInt16LE samples (2 * i) = some s ∧
      readInt16LE out (2 * i) = some (transformSample s (env.getD i 0)) :=
  applyLoop_spec h

lemma applyEnvelope_some (samples : List ℕ) (env : List ℚ)
    (h : ∀ i < env.length, 2 * i + 2 ≤ samples.length) :
    ∃ out, applyEnvelopeToSamples samples env = some out :=
  applyLoop_some env.length h

end BreathEnvelope

namespace BreathEnvelope

/-! ## Claim C1 -/

/-- C1: for every sample buffer and every envelope whose length matches the
sample count (2 bytes per sample), `applyEnvelopeToSamples` succeeds and, at
each index `i`, reads the signed 16-bit little-endian sample `s` at byte
offset `2*i`, computes `(s / 32767) * gain[i]`, clamps it to `[-1, 1]`, and
writes back `floor(clamped * 32767)` as signed 16-bit little-endian; in
particular input sample `32767` with gain `1.0` yields `32767`, and any
sample with gain `0.0` yields `0`. -/
theorem C1_per_sample_transform (samples : List ℕ) (env : List ℚ)
    (hlen : 2 * env.length = samples.length) :
    ∃ out, applyEnvelopeToSamples samples env = some out ∧
      out.length = samples.length ∧
      (∀ i < env.length, ∃ s, readInt16LE samples (2 * i) = some s ∧
        readInt16LE out (2 * i) =
          some ⌊clamp ((s : ℚ) / 32767 * env.getD i 0) * 32767⌋) ∧
      transformSample 32767 1 = 32767 ∧
      (∀ s : ℤ, transformSample s 0 = 0) := by
  obtain ⟨out, hout⟩ := applyEnvelope_some samples env
    (fun i hi => by omega)
  obtain ⟨holen, hread⟩ := applyEnvelope_spec hout
  refine ⟨out, hout, holen, ?_, ?_, ?_⟩
  · intro i hi
    obtain ⟨s, hs, ho⟩ := hread i hi
    exact ⟨s, hs, ho⟩
  · norm_num [transformSample, clamp, min_def, max_def]
  · intro s
    norm_num [transformSample, clamp, min_def, max_def]

/-- Witness for C1 at a concrete buffer: two samples `32767, 0` with gains
`1` and `0`. -/
theorem C1_per_sample_transform_witness :
    2 * ([(1 : ℚ), 0]).length = ([255, 127, 0, 0] : List ℕ).length ∧
    (∃ out, applyEnvelopeToSamples [255, 127, 0, 0] [(1 : ℚ), 0] = some out ∧
      out.length = ([255, 127, 0, 0] : List ℕ).length ∧
      (∀ i < ([(1 : ℚ), 0]).length, ∃ s,
        readInt16LE [255, 127, 0, 0] (2 * i) = some s ∧
        readInt16LE out (2 * i) =
          some ⌊clamp ((s : ℚ) / 32767 * ([(1 : ℚ), 0]).getD i 0) * 32767⌋) ∧
      transformSample 32767 1 = 32767 ∧
      (∀ s : ℤ, transformSample s 0 = 0)) :=
  ⟨rfl, C1_per_sample_transform [255, 127, 0, 0] [(1 : ℚ), 0] rfl⟩

/-! ## Claim C3

The code quantizes with `Math.floor` (rounding toward negative infinity),
not truncation toward zero: on negative non-integral scaled values the two
policies differ by one. -/

/-- C3 counterexample: for input sample `-1` and gain `1/2` the scaled
value is `-1/2`; the code (`Math.floor`) produces `-1`, while truncation
toward zero would produce `0`. -/
theorem C3_truncation_counterexample :
    transformSample (-1) (1 / 2) = -1 ∧
    truncTowardZero (clamp (((-1 : ℤ) : ℚ) / 32767 * (1 / 2)) * 32767) = 0 := by
  constructor
  · norm_num [transformSample, clamp, min_def, max_def]
  · norm_num [truncTowardZero, clamp, min_def, max_def]

/-- C3 amended: the quantization of the scaled value is `Math.floor`
(round toward negative infinity).  It agrees with truncation toward zero
whenever the scaled value is nonnegative, but on every negative
non-integral scaled value it produces exactly one less than truncation
toward zero. -/
theorem C3_quantization_is_floor (s : ℤ) (g : ℚ) :
    transformSample s g = ⌊clamp ((s : ℚ) / 32767 * g) * 32767⌋ ∧
    (0 ≤ clamp ((s : ℚ) / 32767 * g) * 32767 →
      transformSample s g = truncTowardZero (clamp ((s : ℚ) / 32767 * g) * 32767)) ∧
    (clamp ((s : ℚ) / 32767 * g) * 32767 < 0 →
      ((⌊clamp ((s : ℚ) / 32767 * g) * 32767⌋ : ℚ) ≠ clamp ((s : ℚ) / 32767 * g) * 32767) →
      transformSample s g = truncTowardZero (clamp ((s : ℚ) / 32767 * g) * 32767) - 1) := by
  set v : ℚ := clamp ((s : ℚ) / 32767 * g) * 32767 with hv
  refine ⟨rfl, ?_, ?_⟩
  · intro h0
    rw [transformSample, ← hv, truncTowardZero, if_pos h0]
  · intro hneg hnint
    rw [transformSample, ← hv, truncTowardZero, if_neg (by linarith)]
    have hceil : -⌊-v⌋ = ⌈v⌉ := by
      rw [Int.floor_neg]
      ring
    rw [hceil]
    have h1 : (⌊v⌋ : ℚ) < v := lt_of_le_of_ne (Int.floor_le v) hnint
    have h2 : ⌈v⌉ = ⌊v⌋ + 1 := by
      rw [Int.ceil_eq_iff]
      constructor
      · push_cast
        linarith
      · push_cast
        linarith [Int.lt_floor_add_one v]
    omega

/-- Witness for C3's amended theorem at sample `-1`, gain `1/2`. -/
theorem C3_quantization_is_floor_witness :
    transformSample (-1) (1 / 2) =
      truncTowardZero (clamp (((-1 : ℤ) : ℚ) / 32767 * (1 / 2)) * 32767) - 1 :=
  (C3_quantization_is_floor (-1) (1 / 2)).2.2
    (by norm_num [clamp, min_def, max_def])
    (by norm_num [clamp, min_def, max_def])

end BreathEnvelope

namespace BreathEnvelope

/-! ## Lemmas about the envelope curve -/

lemma halfQ_pos {N R : ℕ} (hN : 0 < N) (hR : 0 < R) : 0 < halfQ N R := by
  have hN' : (0 : ℚ) < N := by exact_mod_cast hN
  have hR' : (0 : ℚ) < R := by exact_mod_cast hR
  unfold halfQ
  positivity

lemma tQ_div_halfQ {N R : ℕ} (i : ℕ) (hN : 0 < N) (hR : 0 < R) :
    tQ R i / halfQ N R = (2 * i : ℚ) / N := by
  have hN' : (N : ℚ) ≠ 0 := by positivity
  have hR' : (R : ℚ) ≠ 0 := by positivity
  unfold tQ halfQ
  field_simp
  ring

lemma exhale_arg {N R : ℕ} (i : ℕ) (hN : 0 < N) (hR : 0 < R) :
    (tQ R i - halfQ N R) / halfQ N R = ((2 * i : ℚ) - N) / N := by
  have hN' : (N : ℚ) ≠ 0 := by positivity
  have hR' : (R : ℚ) ≠ 0 := by positivity
  unfold tQ halfQ
  field_simp
  ring

/-- Both branches of `breathingEnvelope` compute the same closed form
`0.5 + 0.5*cos(π*(2i - N)/N)`: the inhale branch because
`cos(x - π) = -cos x` and the cosine is even. -/
lemma breathingEnvelope_eq (N R i : ℕ) (hN : 0 < N) (hR : 0 < R) :
    breathingEnvelope N R i =
      0.5 + 0.5 * Real.cos (Real.pi * ((2 * (i : ℝ) - N) / N)) := by
  have hN' : (N : ℝ) ≠ 0 := by positivity
  unfold breathingEnvelope
  split
  · rw [tQ_div_halfQ i hN hR]
    have hcast : (((2 * i : ℚ) / N : ℚ) : ℝ) = (2 * (i : ℝ)) / N := by push_cast; ring
    rw [hcast]
    have harg : Real.pi * ((2 * (i : ℝ) - N) / N) = Real.pi * (2 * (i : ℝ) / N) - Real.pi := by
      field_simp
      ring
    rw [harg, Real.cos_sub_pi]
    ring
  · rw [exhale_arg i hN hR]
    have hcast : ((((2 * i : ℚ) - N) / N : ℚ) : ℝ) = (2 * (i : ℝ) - N) / N := by
      push_cast
      ring
    rw [hcast]

lemma sub_half_cos_mem (x : ℝ) :
    0 ≤ 0.5 - 0.5 * Real.cos x ∧ 0.5 - 0.5 * Real.cos x ≤ 1 := by
  have h1 := Real.neg_one_le_cos x
  have h2 := Real.cos_le_one x
  constructor <;> nlinarith

lemma add_half_cos_mem (x : ℝ) :
    0 ≤ 0.5 + 0.5 * Real.cos x ∧ 0.5 + 0.5 * Real.cos x ≤ 1 := by
  have h1 := Real.neg_one_le_cos x
  have h2 := Real.cos_le_one x
  constructor <;> nlinarith

lemma breathingEnvelope_mem_Icc (N R i : ℕ) :
    0 ≤ breathingEnvelope N R i ∧ breathingEnvelope N R i ≤ 1 := by
  unfold breathingEnvelope
  split
  · exact sub_half_cos_mem _
  · exact add_half_cos_mem _

end BreathEnvelope

namespace BreathEnvelope

lemma cos_le_cos_of_abs_le {x y : ℝ} (h : |x| ≤ |y|) (hy : |y| ≤ Real.pi) :
    Real.cos y ≤ Real.cos x := by
  rw [← Real.cos_abs x, ← Real.cos_abs y]
  exact Real.cos_le_cos_of_nonneg_of_le_pi (abs_nonneg _) hy h

lemma abs_sub_cast_le {N i j : ℕ}
    (h : (2 * (i : ℤ) - N).natAbs ≤ (2 * (j : ℤ) - N).natAbs) :
    |2 * (i : ℝ) - N| ≤ |2 * (j : ℝ) - N| := by
  have h1 : |2 * (i : ℤ) - (N : ℤ)| ≤ |2 * (j : ℤ) - N| := by
    rw [Int.abs_eq_natAbs, Int.abs_eq_natAbs]
    exact_mod_cast h
  exact_mod_cast h1

/-- Comparison of the absolute envelope phases of indices `i` and `j`,
reduced to the integer inequality `|2i - N| ≤ |2j - N|`. -/
lemma env_phase_abs_le {N i j : ℕ} (hN : 0 < N)
    (h : (2 * (i : ℤ) - N).natAbs ≤ (2 * (j : ℤ) - N).natAbs) :
    |Real.pi * ((2 * (i : ℝ) - N) / N)| ≤ |Real.pi * ((2 * (j : ℝ) - N) / N)| := by
  have hN' : (0 : ℝ) < N := by exact_mod_cast hN
  rw [abs_mul, abs_mul, abs_div, abs_div, abs_of_pos Real.pi_pos, abs_of_pos hN']
  exact mul_le_mul_of_nonneg_left ((div_le_div_iff_of_pos_right hN').mpr (abs_sub_cast_le h))
    Real.pi_pos.le

lemma env_phase_le_pi {N j : ℕ} (hN : 0 < N)
    (h : (2 * (j : ℤ) - N).natAbs ≤ N) :
    |Real.pi * ((2 * (j : ℝ) - N) / N)| ≤ Real.pi := by
  have hN' : (0 : ℝ) < N := by exact_mod_cast hN
  have habs : |2 * (j : ℝ) - N| ≤ N := by
    have h1 : |2 * (j : ℤ) - (N : ℤ)| ≤ (N : ℤ) := by
      rw [Int.abs_eq_natAbs]
      exact_mod_cast h
    exact_mod_cast h1
  rw [abs_mul, abs_div, abs_of_pos Real.pi_pos, abs_of_pos hN']
  calc Real.pi * (|2 * (j : ℝ) - N| / N) ≤ Real.pi * ((N : ℝ) / N) :=
    mul_le_mul_of_nonneg_left ((div_le_div_iff_of_pos_right hN').mpr habs) Real.pi_pos.le
  _ = Real.pi := by field_simp

end BreathEnvelope

namespace BreathEnvelope

/-! ## Claim C2

The code's branch test is `t <= inhaleEnd`, so the sample exactly at
`t == half` is handled by the `if` (inhale) branch, not the `else`
(exhale) branch as the specification states. -/

/-- C2 counterexample: with 2 samples at 1 Hz, sample `i = 1` has
`t = 1 = half` exactly, and the branch test `t <= inhaleEnd` is `true`,
i.e. the sample is handled by the inhale (`if`) branch, not the `else`
branch claimed by the spec. -/
theorem C2_boundary_counterexample :
    tQ 1 1 = halfQ 2 1 ∧ isInhale 2 1 1 = true := by
  constructor
  · norm_num [tQ, halfQ]
  · rw [isInhale, decide_eq_true_eq]
    norm_num [tQ, halfQ]

/-- C2 amended: for every positive sample count and rate, the sample whose
time `t = i / R` equals `half = (N / R) / 2` exactly is handled by the
`if` (inhale) branch — its gain is computed as
`0.5 - 0.5*cos(π * (t / half))` — and that gain equals `1`. -/
theorem C2_boundary_inhale (N R i : ℕ) (hN : 0 < N) (hR : 0 < R)
    (h : tQ R i = halfQ N R) :
    isInhale N R i = true ∧
    breathingEnvelope N R i =
      0.5 - 0.5 * Real.cos (Real.pi * ((tQ R i / halfQ N R : ℚ) : ℝ)) ∧
    breathingEnvelope N R i = 1 := by
  have hinh : isInhale N R i = true := by
    rw [isInhale, decide_eq_true_eq]
    exact le_of_eq h
  have hbr : breathingEnvelope N R i =
      0.5 - 0.5 * Real.cos (Real.pi * ((tQ R i / halfQ N R : ℚ) : ℝ)) := by
    unfold breathingEnvelope
    rw [hinh]
    simp
  refine ⟨hinh, hbr, ?_⟩
  have hhalf : halfQ N R ≠ 0 := ne_of_gt (halfQ_pos hN hR)
  have hx : tQ R i / halfQ N R = 1 := by
    rw [h]
    exact div_self hhalf
  rw [hbr, hx]
  norm_num [Real.cos_pi]

/-- Witness for C2's amended theorem: 2 samples at 1 Hz, sample 1. -/
theorem C2_boundary_inhale_witness :
    tQ 1 1 = halfQ 2 1 ∧ breathingEnvelope 2 1 1 = 1 :=
  ⟨by norm_num [tQ, halfQ],
    (C2_boundary_inhale 2 1 1 (by norm_num) (by norm_num)
      (by norm_num [tQ, halfQ])).2.2⟩

/-! ## Claim C5 -/

/-- C5: for every positive sample count and sample rate, every envelope
value lies in the closed interval `[0, 1]`. -/
theorem C5_envelope_bounds (N R i : ℕ) (hN : 0 < N) (hR : 0 < R) (hi : i < N) :
    0 ≤ breathingEnvelope N R i ∧ breathingEnvelope N R i ≤ 1 :=
  breathingEnvelope_mem_Icc N R i

/-- Witness for C5 at `N = 4`, `R = 2`, `i = 1`. -/
theorem C5_envelope_bounds_witness :
    0 ≤ breathingEnvelope 4 2 1 ∧ breathingEnvelope 4 2 1 ≤ 1 :=
  C5_envelope_bounds 4 2 1 (by norm_num) (by norm_num) (by norm_num)

/-! ## Claim C6 -/

/-- C6: for every positive sample count `N` and rate `R`, the envelope is
non-decreasing on indices `[0, mid]` and non-increasing on `[mid, N-1]`,
where `mid = N / 2`. -/
theorem C6_envelope_monotone (N R : ℕ) (hN : 0 < N) (hR : 0 < R) :
    (∀ i j, i ≤ j → j ≤ N / 2 →
      breathingEnvelope N R i ≤ breathingEnvelope N R j) ∧
    (∀ i j, N / 2 ≤ i → i ≤ j → j ≤ N - 1 →
      breathingEnvelope N R j ≤ breathingEnvelope N R i) := by
  constructor
  · intro i j hij hj
    rw [breathingEnvelope_eq N R i hN hR, breathingEnvelope_eq N R j hN hR]
    have hcos : Real.cos (Real.pi * ((2 * (i : ℝ) - N) / N)) ≤
        Real.cos (Real.pi * ((2 * (j : ℝ) - N) / N)) :=
      cos_le_cos_of_abs_le (env_phase_abs_le hN (by omega)) (env_phase_le_pi hN (by omega))
    linarith
  · intro i j hi hij hj
    rw [breathingEnvelope_eq N R i hN hR, breathingEnvelope_eq N R j hN hR]
    have hcos : Real.cos (Real.pi * ((2 * (j : ℝ) - N) / N)) ≤
        Real.cos (Real.pi * ((2 * (i : ℝ) - N) / N)) :=
      cos_le_cos_of_abs_le (env_phase_abs_le hN (by omega)) (env_phase_le_pi hN (by omega))
    linarith

/-- Witness for C6 at `N = 4`, `R = 1`. -/
theorem C6_envelope_monotone_witness :
    breathingEnvelope 4 1 0 ≤ breathingEnvelope 4 1 2 ∧
    breathingEnvelope 4 1 3 ≤ breathingEnvelope 4 1 2 :=
  ⟨(C6_envelope_monotone 4 1 (by norm_num) (by norm_num)).1 0 2
      (by norm_num) (by norm_num),
    (C6_envelope_monotone 4 1 (by norm_num) (by norm_num)).2 2 3
      (by norm_num) (by norm_num) (by norm_num)⟩

end BreathEnvelope

namespace BreathEnvelope

/-! ## Claim C7

"≈ 0 / ≈ 1 within float tolerance" is made precise with the explicit
quadratic cosine bound: the end values are within `π²/N²` of `0` and the
midpoint value within `π²/(4N²)` of `1` (and exactly `0` resp. `1` at the
first sample and, for even `N`, at the midpoint). -/

/-- C7: `envelope[0] = 0` exactly; `envelope[N-1]` lies within `π²/N²`
of `0`; and `envelope[mid]`, `mid = N/2`, lies within `π²/(4N²)` of `1`. -/
theorem C7_envelope_endpoints (N R : ℕ) (hN : 0 < N) (hR : 0 < R) :
    breathingEnvelope N R 0 = 0 ∧
    0 ≤ breathingEnvelope N R (N - 1) ∧
    breathingEnvelope N R (N - 1) ≤ Real.pi ^ 2 / (N : ℝ) ^ 2 ∧
    1 - Real.pi ^ 2 / (4 * (N : ℝ) ^ 2) ≤ breathingEnvelope N R (N / 2) ∧
    breathingEnvelope N R (N / 2) ≤ 1 := by
  have hN' : (0 : ℝ) < N := by exact_mod_cast hN
  have hNne : (N : ℝ) ≠ 0 := ne_of_gt hN'
  refine ⟨?_, (breathingEnvelope_mem_Icc N R (N - 1)).1, ?_, ?_,
    (breathingEnvelope_mem_Icc N R (N / 2)).2⟩
  · rw [breathingEnvelope_eq N R 0 hN hR]
    have harg : Real.pi * ((2 * ((0 : ℕ) : ℝ) - N) / N) = -Real.pi := by
      push_cast
      field_simp
    rw [harg, Real.cos_neg, Real.cos_pi]
    norm_num
  · rw [breathingEnvelope_eq N R (N - 1) hN hR]
    have hcast : ((N - 1 : ℕ) : ℝ) = (N : ℝ) - 1 := by
      rw [Nat.cast_sub (by omega)]
      norm_num
    rw [hcast]
    have harg : Real.pi * ((2 * ((N : ℝ) - 1) - N) / N) = Real.pi - Real.pi * 2 / N := by
      field_simp
      ring
    rw [harg, Real.cos_pi_sub]
    have hqb := @Real.one_sub_sq_div_two_le_cos (Real.pi * 2 / N)
    have hsq : (Real.pi * 2 / (N : ℝ)) ^ 2 / 2 = 2 * Real.pi ^ 2 / (N : ℝ) ^ 2 := by
      field_simp
      ring
    rw [hsq] at hqb
    have h2 : 2 * Real.pi ^ 2 / (N : ℝ) ^ 2 = 2 * (Real.pi ^ 2 / (N : ℝ) ^ 2) := by
      ring
    linarith [h2 ▸ hqb]
  · rw [breathingEnvelope_eq N R (N / 2) hN hR]
    rcases Nat.mod_two_eq_zero_or_one N with h2 | h2
    · have hkey : 2 * (N / 2) = N := by omega
      have hc : 2 * ((N / 2 : ℕ) : ℝ) = N := by exact_mod_cast hkey
      rw [hc]
      have harg : Real.pi * (((N : ℝ) - N) / N) = 0 := by
        field_simp
      rw [harg, Real.cos_zero]
      have : 0 ≤ Real.pi ^ 2 / (4 * (N : ℝ) ^ 2) := by positivity
      linarith
    · have hkey : 2 * (N / 2) = N - 1 := by omega
      have hc : 2 * ((N / 2 : ℕ) : ℝ) = (N : ℝ) - 1 := by
        rw [show ((N : ℝ) - 1) = ((N - 1 : ℕ) : ℝ) by
          rw [Nat.cast_sub (by omega)]; norm_num]
        exact_mod_cast hkey
      rw [hc]
      have harg : Real.pi * (((N : ℝ) - 1 - N) / N) = -(Real.pi / N) := by
        field_simp
      rw [harg, Real.cos_neg]
      have hqb := @Real.one_sub_sq_div_two_le_cos (Real.pi / N)
      have hsq : (Real.pi / (N : ℝ)) ^ 2 / 2 = Real.pi ^ 2 / (2 * (N : ℝ) ^ 2) := by
        field_simp
        ring
      rw [hsq] at hqb
      have hhalf : Real.pi ^ 2 / (2 * (N : ℝ) ^ 2) = 2 * (Real.pi ^ 2 / (4 * (N : ℝ) ^ 2)) := by
        field_simp
        ring
      rw [hhalf] at hqb
      linarith

/-- Witness for C7 at `N = 4`, `R = 8000`. -/
theorem C7_envelope_endpoints_witness :
    breathingEnvelope 4 8000 0 = 0 ∧
    0 ≤ breathingEnvelope 4 8000 (4 - 1) ∧
    breathingEnvelope 4 8000 (4 - 1) ≤ Real.pi ^ 2 / ((4 : ℕ) : ℝ) ^ 2 ∧
    1 - Real.pi ^ 2 / (4 * ((4 : ℕ) : ℝ) ^ 2) ≤ breathingEnvelope 4 8000 (4 / 2) ∧
    breathingEnvelope 4 8000 (4 / 2) ≤ 1 :=
  C7_envelope_endpoints 4 8000 (by norm_num) (by norm_num)

end BreathEnvelope

namespace BreathEnvelope

/-! ## Lemmas about pattern search (`indexOfPat`) -/

lemma getElem?_eq_readByte (buf : List ℕ) (m : ℕ) :
    buf[m]? = if m < buf.length then some (readByte buf m) else none := by
  split
  · rename_i h
    rw [List.getElem?_eq_getElem h]
    simp [readByte, List.getD_eq_getElem?_getD, List.getElem?_eq_getElem h]
  · rename_i h
    exact List.getElem?_eq_none (le_of_not_lt h)

lemma extractAt_congr {buf buf' : List ℕ} {k n : ℕ}
    (hlen : buf'.length = buf.length)
    (hb : ∀ l, k ≤ l → l < k + n → readByte buf' l = readByte buf l) :
    extractAt buf' k n = extractAt buf k n := by
  apply List.ext_getElem?
  intro l
  by_cases hl : l < n
  · rw [extractAt, extractAt, List.getElem?_take, if_pos hl, List.getElem?_drop,
      List.getElem?_take, if_pos hl, List.getElem?_drop]
    rw [getElem?_eq_readByte, getElem?_eq_readByte, hlen, hb (k + l) (by omega) (by omega)]
  · have h1 : (extractAt buf' k n).length ≤ l := by
      rw [extractAt, List.length_take, List.length_drop]
      omega
    have h2 : (extractAt buf k n).length ≤ l := by
      rw [extractAt, List.length_take, List.length_drop]
      omega
    rw [List.getElem?_eq_none h1, List.getElem?_eq_none h2]

end BreathEnvelope

namespace BreathEnvelope

/-! ## Lemmas about `parseWav` -/

end BreathEnvelope

namespace BreathEnvelope

/-! ## Claim C10 -/

end BreathEnvelope

namespace BreathEnvelope

/-! ## Claim C9

The magic-byte comparison goes through `buffer.toString('ascii', …)`, and
Node's `'ascii'` decoding unsets the high bit of every byte, so a buffer
whose raw bytes 0–3 differ from `"RIFF"` only in high bits still passes the
check: the rejection condition is on the 7-bit-masked bytes, not the raw
bytes.  The channel/bit-depth rejections hold once the earlier checks pass
and the four fmt-field reads are in range. -/

/-- C9 counterexample: byte 0 of this buffer is `0xD2 = 210 ≠ 'R'`, so its
bytes 0–3 are not `"RIFF"`, yet `parseWav` proceeds past the magic check
(failing later with `missingFmtChunk`, not `notRiffWave`).  Conversely, a
buffer whose fmt chunk declares 2 channels but whose magic bytes are wrong
fails with `notRiffWave`, not `unsupportedChannels`. -/
theorem C9_rejection_counterexample :
    (sliceBuf [210, 73, 70, 70, 0, 0, 0, 0, 87, 65, 86, 69] 0 4 ≠ riffB ∧
      parseWav [210, 73, 70, 70, 0, 0, 0, 0, 87, 65, 86, 69] =
        Except.error WavError.missingFmtChunk) ∧
    (readUInt16LE [0, 0, 0, 0, 0, 0, 0, 0, 0, 0, 0, 0,
        102, 109, 116, 32, 16, 0, 0, 0, 1, 0, 2, 0, 64, 31, 0, 0,
        0, 0, 0, 0, 2, 0, 16, 0] 22 = some 2 ∧
      parseWav [0, 0, 0, 0, 0, 0, 0, 0, 0, 0, 0, 0,
        102, 109, 116, 32, 16, 0, 0, 0, 1, 0, 2, 0, 64, 31, 0, 0,
        0, 0, 0, 0, 2, 0, 16, 0] = Except.error WavError.notRiffWave) :=
  ⟨⟨by decide, by rfl⟩, ⟨by rfl, by rfl⟩⟩

/-- C9 amended: (1) every buffer whose 7-bit-masked bytes 0–3 differ from
`"RIFF"` or masked bytes 8–11 differ from `"WAVE"` fails with
`notRiffWave`; (2) every buffer that passes the magic check, has an
`"fmt "` tag, and whose four in-range fmt fields declare PCM format 1 and
2 channels fails with `unsupportedChannels`; (3) with format 1, 1 channel
and 8 bits per sample it fails with `unsupportedBitDepth`. -/
theorem C9_parser_rejections (buf : List ℕ) :
    (¬(asciiSlice buf 0 4 = riffB ∧ asciiSlice buf 8 12 = waveB) →
      parseWav buf = Except.error WavError.notRiffWave) ∧
    (∀ fi sr bits, asciiSlice buf 0 4 = riffB → asciiSlice buf 8 12 = waveB →
      indexOfPat fmtB buf = some fi →
      readUInt16LE buf (fi + 8) = some 1 →
      readUInt16LE buf (fi + 10) = some 2 →
      readUInt32LE buf (fi + 12) = some sr →
      readUInt16LE buf (fi + 22) = some bits →
      parseWav buf = Except.error WavError.unsupportedChannels) ∧
    (∀ fi sr, asciiSlice buf 0 4 = riffB → asciiSlice buf 8 12 = waveB →
      indexOfPat fmtB buf = some fi →
      readUInt16LE buf (fi + 8) = some 1 →
      readUInt16LE buf (fi + 10) = some 1 →
      readUInt32LE buf (fi + 12) = some sr →
      readUInt16LE buf (fi + 22) = some 8 →
      parseWav buf = Except.error WavError.unsupportedBitDepth) := by
  refine ⟨?_, ?_, ?_⟩
  · intro hbad
    unfold parseWav
    rw [if_pos hbad]
  · intro fi sr bits hA hB hfi hf hc hsr hbs
    unfold parseWav
    rw [if_neg (not_not_intro ⟨hA, hB⟩)]
    simp only [hfi, hf, hc, hsr, hbs, liftO]
    norm_num
  · intro fi sr hA hB hfi hf hc hsr hbs
    unfold parseWav
    rw [if_neg (not_not_intro ⟨hA, hB⟩)]
    simp only [hfi, hf, hc, hsr, hbs, liftO]
    norm_num

/-- Witness for C9's three rejections at concrete buffers. -/
theorem C9_parser_rejections_witness :
    parseWav [0, 0, 0, 0] = Except.error WavError.notRiffWave ∧
    parseWav [82, 73, 70, 70, 0, 0, 0, 0, 87, 65, 86, 69,
      102, 109, 116, 32, 16, 0, 0, 0, 1, 0, 2, 0, 64, 31, 0, 0,
      0, 0, 0, 0, 2, 0, 16, 0] = Except.error WavError.unsupportedChannels ∧
    parseWav [82, 73, 70, 70, 0, 0, 0, 0, 87, 65, 86, 69,
      102, 109, 116, 32, 16, 0, 0, 0, 1, 0, 1, 0, 64, 31, 0, 0,
      0, 0, 0, 0, 2, 0, 8, 0] = Except.error WavError.unsupportedBitDepth :=
  ⟨(C9_parser_rejections [0, 0, 0, 0]).1 (by decide),
    (C9_parser_rejections [82, 73, 70, 70, 0, 0, 0, 0, 87, 65, 86, 69,
        102, 109, 116, 32, 16, 0, 0, 0, 1, 0, 2, 0, 64, 31, 0, 0,
        0, 0, 0, 0, 2, 0, 16, 0]).2.1 12 8000 16
      (by decide) (by decide) (by rfl) (by rfl) (by rfl) (by rfl) (by rfl),
    (C9_parser_rejections [82, 73, 70, 70, 0, 0, 0, 0, 87, 65, 86, 69,
        102, 109, 116, 32, 16, 0, 0, 0, 1, 0, 1, 0, 64, 31, 0, 0,
        0, 0, 0, 0, 2, 0, 8, 0]).2.2 12 8000
      (by decide) (by decide) (by rfl) (by rfl) (by rfl) (by rfl) (by rfl)⟩

end BreathEnvelope

namespace BreathEnvelope

/-! ## Lemmas about the serialization in `processFile` -/

end BreathEnvelope

namespace BreathEnvelope

end BreathEnvelope

namespace BreathEnvelope

end BreathEnvelope
